/-
  Verification of the Threat-Hunter log-ingestion / analysis pipeline.

  This file gives a shallow embedding of the parts of the repository that the
  verified properties talk about:
    * SHA-256 (hashlib.sha256) over byte lists, modelled with Nat arithmetic
      mod 2^32;
    * the canonical JSON serialisation json.dumps(doc, sort_keys=True) and a
      JSON line parser (json.loads) over an inductive JSON value type;
    * the TokenBucket rate limiter (core/gemini.py, Threat_Hunter.py);
    * the call_gemini_api retry loop of Threat_Hunter.py and the error path of
      Gemini.generate in core/gemini.py;
    * the log tailer: process_logs of Threat_Hunter.py (non-initial branch and
      its rotation check) and WazuhAPI.read_new_logs of core/wazuh.py;
    * the issue-deduplication logic of Threat_Hunter.py
      (generate_issue_signature, analyze_context_and_identify_issues,
      ignore_issue).

  Theorems at the bottom settle the specification claims against these
  definitions.
-/
import Mathlib

set_option maxRecDepth 10000

namespace ThreatHunter

/-! ## SHA-256 over byte lists (hashlib.sha256), words as Nat mod 2^32 -/

/-- 2^32, the word modulus for SHA-256 arithmetic. -/
def M32 : Nat := 4294967296

/-- Right rotation of a 32-bit word represented as a Nat below 2^32. -/
def rotr32 (x n : Nat) : Nat := (x >>> n) ||| ((x <<< (32 - n)) % M32)

def smallSigma0 (x : Nat) : Nat := rotr32 x 7 ^^^ rotr32 x 18 ^^^ (x >>> 3)

def smallSigma1 (x : Nat) : Nat := rotr32 x 17 ^^^ rotr32 x 19 ^^^ (x >>> 10)

def bigSigma0 (x : Nat) : Nat := rotr32 x 2 ^^^ rotr32 x 13 ^^^ rotr32 x 22

def bigSigma1 (x : Nat) : Nat := rotr32 x 6 ^^^ rotr32 x 11 ^^^ rotr32 x 25

/-- SHA-256 choice function; complement is taken within 32 bits. -/
def chNat (x y z : Nat) : Nat := (x &&& y) ^^^ ((x ^^^ 0xffffffff) &&& z)

def majNat (x y z : Nat) : Nat := (x &&& y) ^^^ (x &&& z) ^^^ (y &&& z)

/-- The 64 SHA-256 round constants (FIPS 180-4), in decimal. -/
def sha256K : List Nat :=
  [1116352408, 1899447441, 3049323471, 3921009573, 961987163, 1508970993,
   2453635748, 2870763221, 3624381080, 310598401, 607225278, 1426881987,
   1925078388, 2162078206, 2614888103, 3248222580, 3835390401, 4022224774,
   264347078, 604807628, 770255983, 1249150122, 1555081692, 1996064986,
   2554220882, 2821834349, 2952996808, 3210313671, 3336571891, 3584528711,
   113926993, 338241895, 666307205, 773529912, 1294757372, 1396182291,
   1695183700, 1986661051, 2177026350, 2456956037, 2730485921, 2820302411,
   3259730800, 3345764771, 3516065817, 3600352804, 4094571909, 275423344,
   430227734, 506948616, 659060556, 883997877, 958139571, 1322822218,
   1537002063, 1747873779, 1955562222, 2024104815, 2227730452, 2361852424,
   2428436474, 2756734187, 3204031479, 3329325298]

/-- Working state of a SHA-256 compression: the eight hash words. -/
structure Hash8 where
  a : Nat
  b : Nat
  c : Nat
  d : Nat
  e : Nat
  f : Nat
  g : Nat
  h : Nat

/-- Initial SHA-256 hash value (FIPS 180-4), in decimal. -/
def sha256Init : Hash8 :=
  ⟨1779033703, 3144134277, 1013904242, 2773480762,
   1359893119, 2600822924, 528734635, 1541459225⟩

/-- One SHA-256 compression round with round constant ki and schedule word wi. -/
def sha256Round (st : Hash8) (kw : Nat × Nat) : Hash8 :=
  let t1 := (st.h + bigSigma1 st.e + chNat st.e st.f st.g + kw.1 + kw.2) % M32
  let t2 := (bigSigma0 st.a + majNat st.a st.b st.c) % M32
  ⟨(t1 + t2) % M32, st.a, st.b, st.c, (st.d + t1) % M32, st.e, st.f, st.g⟩

/-- Append the next message-schedule word to a partial schedule. -/
def scheduleStep (w : List Nat) : List Nat :=
  let n := w.length
  let x2 := w.getD (n - 2) 0
  let x7 := w.getD (n - 7) 0
  let x15 := w.getD (n - 15) 0
  let x16 := w.getD (n - 16) 0
  w ++ [(smallSigma1 x2 + x7 + smallSigma0 x15 + x16) % M32]

/-- Iterate scheduleStep k times. -/
def buildSchedule (w : List Nat) : Nat → List Nat
  | 0 => w
  | k + 1 => buildSchedule (scheduleStep w) k

/-- Big-endian conversion of a byte list into 32-bit words. -/
def bytesToWords : List Nat → List Nat
  | b0 :: b1 :: b2 :: b3 :: rest =>
      (((b0 * 256 + b1) * 256 + b2) * 256 + b3) :: bytesToWords rest
  | _ => []

/-- Big-endian bytes of one 32-bit word. -/
def wordToBytes (w : Nat) : List Nat :=
  [(w >>> 24) % 256, (w >>> 16) % 256, (w >>> 8) % 256, w % 256]

/-- SHA-256 padding: 0x80, zero bytes to 56 mod 64, 8-byte big-endian bit length. -/
def sha256Pad (msg : List Nat) : List Nat :=
  let bitLen := msg.length * 8
  let zeros := (119 - msg.length % 64) % 64
  msg ++ [0x80] ++ List.replicate zeros 0 ++
    (List.range 8).map (fun i => (bitLen >>> ((7 - i) * 8)) % 256)

/-- Split a list into 64-byte chunks; fuel bounds the recursion and one unit
of fuel is always enough for 64 consumed bytes. -/
def chunksGo : Nat → List Nat → List (List Nat)
  | _, [] => []
  | 0, _ => []
  | fuel + 1, l => l.take 64 :: chunksGo fuel (l.drop 64)

/-- Split a list into 64-byte chunks. -/
def chunks64 (l : List Nat) : List (List Nat) := chunksGo l.length l

/-- Compress one 64-byte chunk into the running hash state. -/
def sha256Compress (st : Hash8) (chunk : List Nat) : Hash8 :=
  let ws := buildSchedule (bytesToWords chunk) 48
  let r := (sha256K.zip ws).foldl sha256Round st
  ⟨(st.a + r.a) % M32, (st.b + r.b) % M32, (st.c + r.c) % M32, (st.d + r.d) % M32,
   (st.e + r.e) % M32, (st.f + r.f) % M32, (st.g + r.g) % M32, (st.h + r.h) % M32⟩

/-- SHA-256 digest of a byte list, as the list of 32 digest bytes. -/
def sha256 (msg : List Nat) : List Nat :=
  let fin := (chunks64 (sha256Pad msg)).foldl sha256Compress sha256Init
  wordToBytes fin.a ++ wordToBytes fin.b ++ wordToBytes fin.c ++ wordToBytes fin.d ++
  wordToBytes fin.e ++ wordToBytes fin.f ++ wordToBytes fin.g ++ wordToBytes fin.h

/-- Lower-case hex digit. -/
def hexChar (n : Nat) : Char := if n < 10 then Char.ofNat (48 + n) else Char.ofNat (87 + n)

/-- Two lower-case hex digits of a byte. -/
def byteToHex (b : Nat) : List Char := [hexChar (b / 16), hexChar (b % 16)]

/-- Lower-case hex string of a byte list (.hexdigest()). -/
def hexOfBytes (bs : List Nat) : String := ⟨(bs.map byteToHex).foldr (· ++ ·) []⟩

/-- UTF-8 bytes of one character (str.encode()). -/
def utf8Char (c : Char) : List Nat :=
  let n := c.toNat
  if n < 0x80 then [n]
  else if n < 0x800 then [0xC0 + n / 64, 0x80 + n % 64]
  else if n < 0x10000 then [0xE0 + n / 4096, 0x80 + (n / 64) % 64, 0x80 + n % 64]
  else [0xF0 + n / 262144, 0x80 + (n / 4096) % 64, 0x80 + (n / 64) % 64, 0x80 + n % 64]

/-- UTF-8 encoding of a string as a byte list. -/
def utf8Encode (s : String) : List Nat := (s.data.map utf8Char).foldr (· ++ ·) []

/-- hashlib.sha256(s.encode()).hexdigest(). -/
def sha256HexOfString (s : String) : String := hexOfBytes (sha256 (utf8Encode s))

/-- Python s[:n] on a string, by characters. -/
def strTake (s : String) (n : Nat) : String := ⟨s.data.take n⟩

/-! ## TokenBucket (core/gemini.py TokenBucket, Threat_Hunter.py TokenBucket)

Clock readings and token amounts are modelled as rationals; time.time() values
are passed in explicitly as the now argument of each call. -/

structure TokenBucket where
  capacity : ℚ
  tokens : ℚ
  refillRate : ℚ
  lastRefill : ℚ

/-- TokenBucket.__init__: a fresh bucket is full and stamped with the current time. -/
def TokenBucket.init (capacity refillRate now : ℚ) : TokenBucket :=
  ⟨capacity, capacity, refillRate, now⟩

/-- TokenBucket.consume: refill from elapsed time capped at capacity, then
check-and-decrement. Returns the result and the updated bucket. -/
def TokenBucket.consume (b : TokenBucket) (now n : ℚ) : Bool × TokenBucket :=
  let refilled := min b.capacity (b.tokens + (now - b.lastRefill) * b.refillRate)
  if n ≤ refilled then (true, ⟨b.capacity, refilled - n, b.refillRate, now⟩)
  else (false, ⟨b.capacity, refilled, b.refillRate, now⟩)

/-- TokenBucket.wait_for_tokens: retry consume, sleeping needed/rate + 0.1
between attempts (the next attempt's clock advances by exactly the sleep).
Fuel bounds the number of loop iterations; none means the loop is still
running when the fuel runs out. -/
def TokenBucket.waitForTokens (n : ℚ) : TokenBucket → ℚ → Nat → Option TokenBucket
  | _, _, 0 => none
  | b, now, fuel + 1 =>
    let r := b.consume now n
    if r.1 then some r.2
    else TokenBucket.waitForTokens n r.2 (now + ((n - r.2.tokens) / r.2.refillRate + 1 / 10)) fuel

/-- Bucket states reachable from a fresh bucket by consume calls with
nonnegative requests and a nondecreasing clock. -/
inductive Reaches (C r : ℚ) : TokenBucket → Prop where
  | init : ∀ t0, Reaches C r (TokenBucket.init C r t0)
  | step : ∀ (b : TokenBucket) (now n : ℚ), Reaches C r b → 0 ≤ n →
      b.lastRefill ≤ now → Reaches C r (b.consume now n).2

/-! ## JSON values, canonical serialisation and parsing

JValue models the Python JSON data reachable in this pipeline. Numbers are
restricted to integers (the log records exercised by the claims carry strings
and integers); json.dumps is modelled with its default separators and
ensure_ascii behaviour, json.loads as a fuel-bounded recursive-descent parser
with dict semantics (later duplicate keys overwrite earlier ones). -/

inductive JValue where
  | null : JValue
  | bool (b : Bool) : JValue
  | num (n : Int) : JValue
  | str (s : String) : JValue
  | arr (items : List JValue) : JValue
  | obj (fields : List (String × JValue)) : JValue

/-- Four lower-case hex digits. -/
def hex4 (n : Nat) : List Char :=
  [hexChar (n / 4096 % 16), hexChar (n / 256 % 16), hexChar (n / 16 % 16), hexChar (n % 16)]

/-- JSON string escaping as json.dumps with ensure_ascii=True performs it. -/
def escapeChar (c : Char) : List Char :=
  if c = '"' then ['\\', '"']
  else if c = '\\' then ['\\', '\\']
  else if c = '\n' then ['\\', 'n']
  else if c = '\t' then ['\\', 't']
  else if c = '\r' then ['\\', 'r']
  else if c = '\x08' then ['\\', 'b']
  else if c = '\x0c' then ['\\', 'f']
  else if c.toNat < 32 || 127 ≤ c.toNat then
    if c.toNat < 0x10000 then '\\' :: 'u' :: hex4 c.toNat
    else
      let m := c.toNat - 0x10000
      ('\\' :: 'u' :: hex4 (0xd800 + m / 1024)) ++ ('\\' :: 'u' :: hex4 (0xdc00 + m % 1024))
  else [c]

/-- A JSON string literal with quotes and escapes. -/
def quoteStr (s : String) : String :=
  ⟨'"' :: ((s.data.map escapeChar).foldr (· ++ ·) [] ++ ['"'])⟩

/-- Key order used by json.dumps(•, sort_keys=True). -/
def fieldLE (p q : String × JValue) : Prop := p.1 ≤ q.1

instance : DecidableRel fieldLE := fun p q => inferInstanceAs (Decidable (p.1 ≤ q.1))

instance : IsTotal (String × JValue) fieldLE := ⟨fun a b => le_total a.1 b.1⟩

instance : IsTrans (String × JValue) fieldLE := ⟨fun _ _ _ h₁ h₂ => le_trans h₁ h₂⟩

/-- Sort object items by key, as json.dumps(•, sort_keys=True) does. -/
def sortFields (fs : List (String × JValue)) : List (String × JValue) :=
  List.insertionSort fieldLE fs

theorem mem_of_mem_sortFields {p : String × JValue} {fs : List (String × JValue)}
    (h : p ∈ sortFields fs) : p ∈ fs :=
  (List.perm_insertionSort fieldLE fs).mem_iff.mp h

/-- json.dumps(v, sort_keys=True) with default separators. -/
def dumps : JValue → String
  | .null => "null"
  | .bool b => if b then "true" else "false"
  | .num n => toString n
  | .str s => quoteStr s
  | .arr items =>
      "[" ++ String.intercalate ", " (items.attach.map (fun x => dumps x.1)) ++ "]"
  | .obj fields =>
      "\x7b" ++ String.intercalate ", "
        ((sortFields fields).attach.map (fun p => quoteStr p.1.1 ++ ": " ++ dumps p.1.2))
        ++ "\x7d"
termination_by v => sizeOf v
decreasing_by
  · have h1 := List.sizeOf_lt_of_mem x.2
    simp only [JValue.arr.sizeOf_spec]
    omega
  · have h1 := List.sizeOf_lt_of_mem (mem_of_mem_sortFields p.2)
    have h2 : sizeOf p.1.2 < sizeOf p.1 := by
      obtain ⟨a, b⟩ := p.1
      simp only [Prod.mk.sizeOf_spec]
      omega
    simp only [JValue.obj.sizeOf_spec]
    omega

/-- Content digest of a record:
hashlib.sha256(json.dumps(doc, sort_keys=True).encode()).hexdigest()
(VectorDB.add_documents in core/vector_db.py, add_to_vector_db in
Threat_Hunter.py). -/
def docDigest (v : JValue) : String := sha256HexOfString (dumps v)

mutual

/-- Equality of JSON values as (nested) mappings: two values are equal as
maps when they agree on leaves and array element order, and every object —
at any nesting depth — has the same key-value content with unique keys,
possibly written with its keys in a different order. An object on the left
is related to one on the right when some permutation of its fields matches
the right-hand fields key-for-key with map-equal values. -/
inductive MapEquiv : JValue → JValue → Prop where
  | null : MapEquiv .null .null
  | bool : ∀ {b : Bool}, MapEquiv (.bool b) (.bool b)
  | num : ∀ {n : Int}, MapEquiv (.num n) (.num n)
  | str : ∀ {s : String}, MapEquiv (.str s) (.str s)
  | arr : ∀ {items₁ items₂ : List JValue}, MapEquivList items₁ items₂ →
      MapEquiv (.arr items₁) (.arr items₂)
  | obj : ∀ {fields₁ fields₂ fields₃ : List (String × JValue)},
      (fields₁.map Prod.fst).Nodup → fields₁.Perm fields₃ →
      MapEquivFields fields₃ fields₂ → MapEquiv (.obj fields₁) (.obj fields₂)

inductive MapEquivList : List JValue → List JValue → Prop where
  | nil : MapEquivList [] []
  | cons : ∀ {v₁ v₂ : JValue} {l₁ l₂ : List JValue}, MapEquiv v₁ v₂ →
      MapEquivList l₁ l₂ → MapEquivList (v₁ :: l₁) (v₂ :: l₂)

inductive MapEquivFields : List (String × JValue) → List (String × JValue) → Prop where
  | nil : MapEquivFields [] []
  | cons : ∀ {k : String} {v₁ v₂ : JValue} {fs₁ fs₂ : List (String × JValue)},
      MapEquiv v₁ v₂ → MapEquivFields fs₁ fs₂ →
      MapEquivFields ((k, v₁) :: fs₁) ((k, v₂) :: fs₂)

end

/-- JSON insignificant whitespace. -/
def isJWs (c : Char) : Bool := c = ' ' || c = '\t' || c = '\n' || c = '\r'

def digitVal (c : Char) : Option Nat :=
  if '0' ≤ c && c ≤ '9' then some (c.toNat - 48) else none

def hexVal (c : Char) : Option Nat :=
  if '0' ≤ c && c ≤ '9' then some (c.toNat - 48)
  else if 'a' ≤ c && c ≤ 'f' then some (c.toNat - 87)
  else if 'A' ≤ c && c ≤ 'F' then some (c.toNat - 55)
  else none

def natOfDigits (ds : List Char) : Nat :=
  ds.foldl (fun a c => a * 10 + (c.toNat - 48)) 0

/-- Body of a JSON string literal (after the opening quote), with escapes. -/
def parseStringBody : Nat → List Char → List Char → Option (String × List Char)
  | 0, _, _ => none
  | fuel + 1, acc, s =>
    match s with
    | [] => none
    | c :: rest =>
      if c = '"' then some (⟨acc.reverse⟩, rest)
      else if c = '\\' then
        match rest with
        | [] => none
        | e :: rest2 =>
          if e = '"' then parseStringBody fuel ('"' :: acc) rest2
          else if e = '\\' then parseStringBody fuel ('\\' :: acc) rest2
          else if e = '/' then parseStringBody fuel ('/' :: acc) rest2
          else if e = 'n' then parseStringBody fuel ('\n' :: acc) rest2
          else if e = 't' then parseStringBody fuel ('\t' :: acc) rest2
          else if e = 'r' then parseStringBody fuel ('\r' :: acc) rest2
          else if e = 'b' then parseStringBody fuel ('\x08' :: acc) rest2
          else if e = 'f' then parseStringBody fuel ('\x0c' :: acc) rest2
          else if e = 'u' then
            match rest2 with
            | h1 :: h2 :: h3 :: h4 :: rest3 =>
              match hexVal h1, hexVal h2, hexVal h3, hexVal h4 with
              | some a, some b, some cc, some d =>
                  parseStringBody fuel
                    (Char.ofNat (((a * 16 + b) * 16 + cc) * 16 + d) :: acc) rest3
              | _, _, _, _ => none
            | _ => none
          else none
      else parseStringBody fuel (c :: acc) rest

/-- Python dict insertion: a duplicate key overwrites in place, a new key is
appended. -/
def insertKV : List (String × JValue) → String → JValue → List (String × JValue)
  | [], k, v => [(k, v)]
  | (k', v') :: rest, k, v =>
    if k' = k then (k, v) :: rest else (k', v') :: insertKV rest k v

/-- JSON number: an optional sign and decimal digits (integers only). -/
def parseNumber (s : List Char) : Option (JValue × List Char) :=
  match s with
  | '-' :: rest =>
    let ds := rest.takeWhile (·.isDigit)
    if ds = [] then none
    else some (.num (-(natOfDigits ds : Int)), rest.drop ds.length)
  | _ =>
    let ds := s.takeWhile (·.isDigit)
    if ds = [] then none
    else some (.num (natOfDigits ds : Int), s.drop ds.length)

/-- Members of a JSON object after the opening brace of a non-empty object;
pv parses one value. -/
def parseMembers (pv : List Char → Option (JValue × List Char)) :
    Nat → List (String × JValue) → List Char → Option (List (String × JValue) × List Char)
  | 0, _, _ => none
  | fuel + 1, acc, s =>
    match s.dropWhile isJWs with
    | '"' :: rest =>
      match parseStringBody (rest.length + 1) [] rest with
      | none => none
      | some (key, r2) =>
        match r2.dropWhile isJWs with
        | ':' :: r4 =>
          match pv r4 with
          | none => none
          | some (v, r5) =>
            let acc2 := insertKV acc key v
            match r5.dropWhile isJWs with
            | ',' :: r7 => parseMembers pv fuel acc2 r7
            | '\x7d' :: r7 => some (acc2, r7)
            | _ => none
        | _ => none
    | _ => none

/-- Items of a JSON array after the opening bracket of a non-empty array. -/
def parseItems (pv : List Char → Option (JValue × List Char)) :
    Nat → List JValue → List Char → Option (List JValue × List Char)
  | 0, _, _ => none
  | fuel + 1, acc, s =>
    match pv s with
    | none => none
    | some (v, r1) =>
      match r1.dropWhile isJWs with
      | ',' :: r2 => parseItems pv fuel (acc ++ [v]) r2
      | ']' :: r2 => some (acc ++ [v], r2)
      | _ => none

/-- Recursive-descent JSON value parser; fuel bounds nesting depth. -/
def parseValue : Nat → List Char → Option (JValue × List Char)
  | 0, _ => none
  | fuel + 1, s =>
    match s.dropWhile isJWs with
    | [] => none
    | c :: rest =>
      if c = '\x7b' then
        match rest.dropWhile isJWs with
        | '\x7d' :: r2 => some (.obj [], r2)
        | _ =>
          match parseMembers (parseValue fuel) (rest.length + 1) [] rest with
          | some (fs, r2) => some (.obj fs, r2)
          | none => none
      else if c = '[' then
        match rest.dropWhile isJWs with
        | ']' :: r2 => some (.arr [], r2)
        | _ =>
          match parseItems (parseValue fuel) (rest.length + 1) [] rest with
          | some (items, r2) => some (.arr items, r2)
          | none => none
      else if c = '"' then
        match parseStringBody (rest.length + 1) [] rest with
        | some (str, r2) => some (.str str, r2)
        | none => none
      else if c = 't' then
        match c :: rest with
        | 't' :: 'r' :: 'u' :: 'e' :: r2 => some (.bool true, r2)
        | _ => none
      else if c = 'f' then
        match c :: rest with
        | 'f' :: 'a' :: 'l' :: 's' :: 'e' :: r2 => some (.bool false, r2)
        | _ => none
      else if c = 'n' then
        match c :: rest with
        | 'n' :: 'u' :: 'l' :: 'l' :: r2 => some (.null, r2)
        | _ => none
      else parseNumber (c :: rest)

/-- json.loads on one line: parse a value and require only trailing
whitespace. -/
def jsonLoads (s : String) : Option JValue :=
  match parseValue (s.length + 1) s.data with
  | some (v, rest) => if rest.dropWhile isJWs = [] then some v else none
  | none => none

/-! ## Log tailer models

The log file is modelled as a list of characters (the alert logs are ASCII, so
byte offsets and character offsets coincide); f.seek(pos) is List.drop,
f.readline() takes characters up to and including a newline, and f.tell() is
the running count of consumed characters. -/

/-- f.readline(): one line including its trailing newline, and the rest. -/
def readLine : List Char → List Char × List Char
  | [] => ([], [])
  | c :: cs =>
    if c = '\n' then ([c], cs)
    else
      let r := readLine cs
      (c :: r.1, r.2)

/-- The read loop of process_logs (Threat_Hunter.py, non-initial branch):
while log_count < batch_size, read a line, stop on end of file, parse it,
count and keep it on success, skip it on JSONDecodeError. Returns the parsed
logs and the number of characters consumed. Fuel bounds the recursion; one
unit per line read always suffices. -/
def thReadLoop (bs : Nat) : Nat → Nat → List Char → List JValue × Nat
  | 0, _, _ => ([], 0)
  | fuel + 1, cnt, rest =>
    if cnt < bs then
      let r := readLine rest
      if r.1 = [] then ([], 0)
      else
        match jsonLoads ⟨r.1⟩ with
        | some v =>
          let t := thReadLoop bs fuel (cnt + 1) r.2
          (v :: t.1, r.1.length + t.2)
        | none =>
          let t := thReadLoop bs fuel cnt r.2
          (t.1, r.1.length + t.2)
    else ([], 0)

/-- Observable side effects of process_logs after the read, in program order. -/
inductive PLEffect where
  | setPosition (pos : Nat)
  | handoffVectorDB (logs : List JValue)
  | saveVectorDB
  | saveDashboard

/-- The start offset used by process_logs: the persisted offset, reset to 0
when it exceeds the current file size (rotation handling). -/
def startPosTH (file : List Char) (lastPos : Nat) : Nat :=
  if file.length < lastPos then 0 else lastPos

/-- process_logs (Threat_Hunter.py, established-run branch): rotation check,
batch read from the persisted offset, then, in program order,
set_log_position(current_position), and — only when logs were read —
add_to_vector_db(logs) (the downstream handoff) and save_vector_db(),
and finally save_dashboard_data(). Returns the logs and the effect trace. -/
def processLogsTH (file : List Char) (lastPos bs : Nat) : List JValue × List PLEffect :=
  let startPos := startPosTH file lastPos
  let r := thReadLoop bs (file.length + 1) 0 (file.drop startPos)
  let currentPosition := startPos + r.2
  (r.1, PLEffect.setPosition currentPosition ::
    ((if r.1.isEmpty then [] else [PLEffect.handoffVectorDB r.1, PLEffect.saveVectorDB]) ++
      [PLEffect.saveDashboard]))

def isSetPosition : PLEffect → Bool
  | .setPosition _ => true
  | _ => false

def isHandoff : PLEffect → Bool
  | .handoffVectorDB _ => true
  | _ => false

/-- The offset-persistence discipline the specification asserts: every
setPosition effect comes after every downstream handoff in the trace. -/
def persistedOnlyAfterHandoff (tr : List PLEffect) : Bool :=
  (List.range tr.length).all fun i =>
    (List.range tr.length).all fun j =>
      !(isSetPosition (tr.getD i .saveDashboard)) ||
      !(isHandoff (tr.getD j .saveDashboard)) || decide (j < i)

/-- The read loop of WazuhAPI.read_new_logs (core/wazuh.py): for each of
batch_size iterations read a line, stop at end of file, keep lines that parse
and skip lines that raise JSONDecodeError. Returns the parsed logs and the
number of characters consumed. -/
def wzReadLoop : Nat → List Char → List JValue × Nat
  | 0, _ => ([], 0)
  | bs + 1, rest =>
    let r := readLine rest
    if r.1 = [] then ([], 0)
    else
      match jsonLoads ⟨r.1⟩ with
      | some v =>
        let t := wzReadLoop bs r.2
        (v :: t.1, r.1.length + t.2)
      | none =>
        let t := wzReadLoop bs r.2
        (t.1, r.1.length + t.2)

/-- WazuhAPI.read_new_logs: seek to the persisted position (no rotation
check), run the batch loop, and persist f.tell(). Returns the logs handed to
the caller and the position written to the position file. -/
def readNewLogsW (file : List Char) (pos bs : Nat) : List JValue × Nat :=
  let r := wzReadLoop bs (file.drop pos)
  (r.1, pos + r.2)

/-- The raw lines the wazuh batch loop consumes. -/
def wzLines : Nat → List Char → List (List Char)
  | 0, _ => []
  | bs + 1, rest =>
    let r := readLine rest
    if r.1 = [] then [] else r.1 :: wzLines bs r.2

/-- How many of the lines consumed by the wazuh batch loop fail to parse. -/
def wzMalformedCount (bs : Nat) (rest : List Char) : Nat :=
  ((wzLines bs rest).filter (fun l => (jsonLoads ⟨l⟩).isNone)).length

/-! ## The completion-client call loop (call_gemini_api, Threat_Hunter.py)
and the error path of Gemini.generate (core/gemini.py)

The network is an oracle: a list of per-attempt responses. Payload handling
on a 2xx response with a well-formed candidates/parts structure is collapsed
into the returned text. -/

/-- The outcome of one HTTP attempt, as call_gemini_api distinguishes them. -/
inductive GemResp where
  | success (text : String)
  | rate429
  | timeout
  | httpError
  | otherError

/-- What call_gemini_api does on completion: return text, or raise
HTTPException(code, detail). -/
inductive GemResult where
  | ok (text : String)
  | httpException (code : Nat) (detail : String)

/-- Loop state: retry_count, current_api_key_index and the
consecutive_failures counter of every key. -/
structure GemState where
  retryCount : Nat
  cur : Nat
  failures : List Nat

/-- rotate_api_key: advance the index round-robin and reset the old key's
consecutive-failure counter. -/
def rotateKey (n : Nat) (st : GemState) : GemState :=
  ⟨st.retryCount, (st.cur + 1) % n, st.failures.set st.cur 0⟩

/-- One loop-body outcome: continue with a new state (rotated says whether
rotate_api_key ran), or leave the loop with a result. -/
inductive GemStep where
  | next (st : GemState) (rotated : Bool)
  | finish (r : GemResult) (st : GemState)

/-- One iteration of the call_gemini_api while-body on a given response:
success resets the current key's consecutive-failure counter and returns the
text; a 429 increments it, rotating (without consuming a retry) once it
reaches 3 and otherwise consuming a retry; a timeout consumes a retry; an
HTTP error raises 503 and any other error raises 500. -/
def gemApiStep (n : Nat) (st : GemState) (resp : GemResp) : GemStep :=
  match resp with
  | .success t =>
      .finish (.ok t) ⟨st.retryCount, st.cur, st.failures.set st.cur 0⟩
  | .rate429 =>
      let f := st.failures.getD st.cur 0 + 1
      let st1 : GemState := ⟨st.retryCount, st.cur, st.failures.set st.cur f⟩
      if 3 ≤ f then .next (rotateKey n st1) true
      else .next ⟨st1.retryCount + 1, st1.cur, st1.failures⟩ false
  | .timeout => .next ⟨st.retryCount + 1, st.cur, st.failures⟩ false
  | .httpError => .finish (.httpException 503 "Gemini API request failed") st
  | .otherError => .finish (.httpException 500 "Unexpected error") st

/-- Whether one loop iteration invoked rotate_api_key. -/
def stepRotated (n : Nat) (st : GemState) (resp : GemResp) : Bool :=
  match gemApiStep n st resp with
  | .next _ rot => rot
  | .finish _ _ => false

/-- The call_gemini_api while-loop: with retry_count at max_retries = 15 it
raises HTTPException(429, "Max retries exceeded."); otherwise it consumes the
next oracle response. none means the oracle ran out while the loop wanted to
continue. -/
def runCalls (n : Nat) : GemState → List GemResp → Option (GemResult × GemState)
  | st, [] =>
    if 15 ≤ st.retryCount then
      some (.httpException 429 "Max retries exceeded.", st)
    else none
  | st, r :: rest =>
    if 15 ≤ st.retryCount then
      some (.httpException 429 "Max retries exceeded.", st)
    else
      match gemApiStep n st r with
      | .finish res st2 => some (res, st2)
      | .next st2 _ => runCalls n st2 rest

/-- Initial loop state: retry_count 0 and a zero consecutive_failures counter
for each of the n configured keys (defaultdict(int)). -/
def initGemState (n : Nat) : GemState := ⟨0, 0, List.replicate n 0⟩

/-- The loop-state invariant: one counter per key, a valid active index, and
every consecutive-failure counter at most 2 between iterations. -/
def GoodGem (n : Nat) (st : GemState) : Prop :=
  st.failures.length = n ∧ st.cur < n ∧ ∀ f ∈ st.failures, f ≤ 2

/-- Termination potential of the call loop. -/
def gemPotential (st : GemState) : Nat :=
  3 * (15 - st.retryCount) + st.failures.sum

/-- The outcome classes of one Gemini.generate call (core/gemini.py). -/
inductive GenEvent where
  | success
  | err429
  | errOther

/-- Credential state of the Gemini class: active key index and per-key
consecutive-failure counters. -/
structure GenState where
  cur : Nat
  failures : List Nat

/-- Gemini.rotate: advance round-robin, reset the old key's counter. -/
def genRotate (n : Nat) (st : GenState) : GenState :=
  ⟨(st.cur + 1) % n, st.failures.set st.cur 0⟩

/-- The error/success handling at the end of Gemini.generate
(core/gemini.py): success resets the active key's counter; a 429 increments
it and rotates at 3; any other exception rotates immediately. Returns the new
state and whether rotate ran. -/
def genHandle (n : Nat) (st : GenState) (e : GenEvent) : GenState × Bool :=
  match e with
  | .success => (⟨st.cur, st.failures.set st.cur 0⟩, false)
  | .err429 =>
      let f := st.failures.getD st.cur 0 + 1
      let st1 : GenState := ⟨st.cur, st.failures.set st.cur f⟩
      if 3 ≤ f then (genRotate n st1, true) else (st1, false)
  | .errOther => (genRotate n st, true)

/-! ## Issue deduplication (Threat_Hunter.py: generate_issue_signature,
analyze_context_and_identify_issues, ignore_issue)

Candidates are modelled as carrying the four required fields (the loop skips
candidates that lack one of them before any of the logic below runs). -/

/-- Python str.split() on a character list: split on whitespace runs,
dropping empty pieces. -/
def splitWsAux : List Char → List Char → List String
  | [], acc => if acc = [] then [] else [⟨acc.reverse⟩]
  | c :: cs, acc =>
    if c = ' ' || c = '\t' || c = '\n' || c = '\r' || c = '\x0b' || c = '\x0c' then
      if acc = [] then splitWsAux cs [] else ⟨acc.reverse⟩ :: splitWsAux cs []
    else splitWsAux cs (c :: acc)

/-- Python str.split(). -/
def pySplit (s : String) : List String := splitWsAux s.data []

/-- A candidate issue from the analysis output, after the required-field
check. -/
structure CandidateIssue where
  severity : String
  title : String
  summary : String
  recommendation : String

/-- A dashboard issue (the fields the deduplication logic reads). -/
structure Issue where
  id : String
  severity : String
  title : String
  summary : String
  recommendation : String
  timestamp : String

/-- generate_issue_signature: sha256 of
lower(severity) | first 5 words of lower(title) | first 10 words of
lower(summary), truncated to 16 hex characters. -/
def issueSignature (severity title summary : String) : String :=
  let sev := severity.toLower
  let titleWords := (pySplit title.toLower).take 5
  let summaryWords := (pySplit summary.toLower).take 10
  strTake (sha256HexOfString
    (sev ++ "|" ++ String.intercalate " " titleWords ++ "|"
      ++ String.intercalate " " summaryWords)) 16

def candSignature (c : CandidateIssue) : String :=
  issueSignature c.severity c.title c.summary

def issueSig (i : Issue) : String := issueSignature i.severity i.title i.summary

/-- The issue id: sha256 of the title, truncated to 10 hex characters. -/
def issueIdOf (title : String) : String := strTake (sha256HexOfString title) 10

def mkIssue (c : CandidateIssue) (id ts : String) : Issue :=
  ⟨id, c.severity, c.title, c.summary, c.recommendation, ts⟩

/-- The candidate loop of analyze_context_and_identify_issues: for each
candidate compute the signature and skip it when the signature is already
known (from a pre-existing issue or from a candidate accepted earlier in this
batch); otherwise derive the id from the title and skip it when the id is in
the persisted ignore set; otherwise accept it and remember its signature. -/
def processCandidates (ts : String) (ignored : List String) :
    List String → List CandidateIssue → List Issue
  | _, [] => []
  | sigs, c :: rest =>
    let sig := candSignature c
    if sig ∈ sigs then processCandidates ts ignored sigs rest
    else
      let id := issueIdOf c.title
      if id ∈ ignored then processCandidates ts ignored sigs rest
      else mkIssue c id ts :: processCandidates ts ignored (sig :: sigs) rest

/-- Dashboard state: the active issue list and the persisted ignore set. -/
structure AnalysisState where
  issues : List Issue
  ignored : List String

/-- The reconciliation step of analyze_context_and_identify_issues: run the
candidate loop against the signatures of the current issues, then insert each
accepted issue at the front unless its id is already present, and truncate to
max_issues. -/
def analyzeStep (st : AnalysisState) (batch : List CandidateIssue)
    (ts : String) (maxIssues : Nat) : AnalysisState :=
  let newIssues := processCandidates ts st.ignored (st.issues.map issueSig) batch
  let existingIds := st.issues.map Issue.id
  let inserted := (newIssues.filter (fun i => decide (i.id ∉ existingIds))).foldl
    (fun acc i => i :: acc) st.issues
  ⟨inserted.take maxIssues, st.ignored⟩

/-- ignore_issue: drop the issue from the active list and add its id to the
persisted ignore set. -/
def ignoreIssue (issueId : String) (st : AnalysisState) : AnalysisState :=
  ⟨st.issues.filter (fun i => i.id ≠ issueId), issueId :: st.ignored⟩

/-! ## Concrete example inputs used by witnesses and counterexamples -/

/-- A log file holding a single well-formed JSON record line. -/
def exOneLineFile : List Char := String.data "\x7b\"a\": 1\x7d\n"

/-- A 1000-character log file of one hundred 10-character JSON record lines. -/
def exRotFile : List Char :=
  (List.replicate 100 (String.data "\x7b\"a\": 19\x7d\n")).foldr (· ++ ·) []

/-- A ten-record batch whose seventh record is malformed. -/
def exBatch10 : List Char :=
  String.data ("\x7b\"i\": 1\x7d\n\x7b\"i\": 2\x7d\n\x7b\"i\": 3\x7d\n\x7b\"i\": 4\x7d\n"
    ++ "\x7b\"i\": 5\x7d\n\x7b\"i\": 6\x7d\nMALFORMED\n\x7b\"i\": 8\x7d\n"
    ++ "\x7b\"i\": 9\x7d\n\x7b\"i\": 10\x7d\n")

/-- One well-formed record followed by one malformed 5-character tail. -/
def exMal1 : List Char := String.data "\x7b\"a\": 1\x7d\nabcd\n"

/-- The same well-formed record followed by two malformed lines of 5
characters in total. -/
def exMal2 : List Char := String.data "\x7b\"a\": 1\x7d\nab\nc\n"

/-! ## Theorems -/

theorem sorted_perm_eq_of_nodupKeys :
    ∀ {l₁ l₂ : List (String × JValue)}, l₁.Perm l₂ →
      List.Sorted fieldLE l₁ → List.Sorted fieldLE l₂ →
      (l₁.map Prod.fst).Nodup → l₁ = l₂ := by
  intro l₁
  induction l₁ with
  | nil => intro l₂ hp _ _ _; exact hp.nil_eq
  | cons a t₁ ih =>
    intro l₂ hp hs₁ hs₂ hnd
    cases l₂ with
    | nil => exact absurd hp.eq_nil (by simp)
    | cons b t₂ =>
      by_cases hab : a = b
      · subst hab
        have ht : t₁.Perm t₂ := hp.cons_inv
        have hnd' : (t₁.map Prod.fst).Nodup := by
          simp only [List.map_cons] at hnd
          exact hnd.of_cons
        rw [ih ht hs₁.of_cons hs₂.of_cons hnd']
      · exfalso
        have hain : a ∈ b :: t₂ := hp.subset (List.mem_cons_self a t₁)
        have hat2 : a ∈ t₂ := by
          rcases List.mem_cons.mp hain with h | h
          · exact absurd h hab
          · exact h
        have hbin : b ∈ a :: t₁ := hp.symm.subset (List.mem_cons_self b t₂)
        have hbt1 : b ∈ t₁ := by
          rcases List.mem_cons.mp hbin with h | h
          · exact absurd h.symm hab
          · exact h
        have h1 : fieldLE a b := List.rel_of_sorted_cons hs₁ b hbt1
        have h2 : fieldLE b a := List.rel_of_sorted_cons hs₂ a hat2
        have hkey : a.1 = b.1 :=
          le_antisymm (show a.1 ≤ b.1 from h1) (show b.1 ≤ a.1 from h2)
        have hmem : a.1 ∈ t₁.map Prod.fst := by
          rw [hkey]
          exact List.mem_map_of_mem Prod.fst hbt1
        simp only [List.map_cons, List.nodup_cons] at hnd
        exact hnd.1 hmem

theorem sortFields_congr {l₁ l₂ : List (String × JValue)} (hp : l₁.Perm l₂)
    (hnd : (l₁.map Prod.fst).Nodup) : sortFields l₁ = sortFields l₂ := by
  apply sorted_perm_eq_of_nodupKeys
  · exact (List.perm_insertionSort fieldLE l₁).trans
      (hp.trans (List.perm_insertionSort fieldLE l₂).symm)
  · exact List.sorted_insertionSort fieldLE l₁
  · exact List.sorted_insertionSort fieldLE l₂
  · exact (((List.perm_insertionSort fieldLE l₁).map Prod.fst).nodup_iff).mpr hnd

theorem dumps_arr_eq (items : List JValue) :
    dumps (.arr items) = "[" ++ String.intercalate ", " (items.map dumps) ++ "]" := by
  simp only [dumps]
  rw [List.attach_map_val items dumps]

theorem dumps_obj_eq (fields : List (String × JValue)) :
    dumps (.obj fields) = "\x7b" ++ String.intercalate ", "
      ((sortFields fields).map (fun p => quoteStr p.1 ++ ": " ++ dumps p.2)) ++ "\x7d" := by
  simp only [dumps]
  rw [List.attach_map_val (sortFields fields) (fun p => quoteStr p.1 ++ ": " ++ dumps p.2)]

theorem mapEquivFields_orderedInsert {k : String} {v₁ v₂ : JValue}
    (hv : MapEquiv v₁ v₂) :
    ∀ {l₁ l₂ : List (String × JValue)}, MapEquivFields l₁ l₂ →
    MapEquivFields (List.orderedInsert fieldLE (k, v₁) l₁)
      (List.orderedInsert fieldLE (k, v₂) l₂) := by
  intro l₁
  induction l₁ with
  | nil =>
    intro l₂ hl
    cases hl
    exact .cons hv .nil
  | cons p t₁ ih =>
    obtain ⟨k2, w₁⟩ := p
    intro l₂ hl
    cases hl with
    | @cons _ _ w₂ _ t₂ hw ht =>
      simp only [List.orderedInsert]
      by_cases hle : (k : String) ≤ k2
      · rw [if_pos (show fieldLE (k, v₁) (k2, w₁) from hle),
          if_pos (show fieldLE (k, v₂) (k2, w₂) from hle)]
        exact .cons hv (.cons hw ht)
      · rw [if_neg (show ¬ fieldLE (k, v₁) (k2, w₁) from hle),
          if_neg (show ¬ fieldLE (k, v₂) (k2, w₂) from hle)]
        exact .cons hw (ih ht)

theorem mapEquivFields_sortFields :
    ∀ {l₁ l₂ : List (String × JValue)}, MapEquivFields l₁ l₂ →
    MapEquivFields (sortFields l₁) (sortFields l₂) := by
  intro l₁
  induction l₁ with
  | nil =>
    intro l₂ h
    cases h
    exact .nil
  | cons p t₁ ih =>
    obtain ⟨k, w₁⟩ := p
    intro l₂ h
    cases h with
    | @cons _ _ w₂ _ t₂ hw ht =>
      simp only [sortFields, List.insertionSort]
      exact mapEquivFields_orderedInsert hw (ih ht)

theorem map_dumps_mapEquivList :
    ∀ {l₁ l₂ : List JValue}, MapEquivList l₁ l₂ →
    (∀ v ∈ l₁, ∀ w, MapEquiv v w → dumps v = dumps w) →
    l₁.map dumps = l₂.map dumps := by
  intro l₁
  induction l₁ with
  | nil =>
    intro l₂ h _
    cases h
    rfl
  | cons v₁ t₁ ih =>
    intro l₂ h IH
    cases h with
    | @cons _ v₂ _ t₂ hv ht =>
      simp only [List.map_cons]
      rw [IH v₁ (List.mem_cons_self _ _) v₂ hv,
        ih ht (fun v hm w hw => IH v (List.mem_cons_of_mem _ hm) w hw)]

theorem map_render_mapEquivFields :
    ∀ {l₁ l₂ : List (String × JValue)}, MapEquivFields l₁ l₂ →
    (∀ p ∈ l₁, ∀ w, MapEquiv p.2 w → dumps p.2 = dumps w) →
    l₁.map (fun p => quoteStr p.1 ++ ": " ++ dumps p.2) =
      l₂.map (fun p => quoteStr p.1 ++ ": " ++ dumps p.2) := by
  intro l₁
  induction l₁ with
  | nil =>
    intro l₂ h _
    cases h
    rfl
  | cons p t₁ ih =>
    obtain ⟨k, v₁⟩ := p
    intro l₂ h IH
    cases h with
    | @cons _ _ v₂ _ t₂ hv ht =>
      simp only [List.map_cons]
      rw [show dumps v₁ = dumps v₂ from IH (k, v₁) (List.mem_cons_self _ _) v₂ hv,
        ih ht (fun q hm w hw => IH q (List.mem_cons_of_mem _ hm) w hw)]

theorem dumps_mapEquiv_aux : ∀ (n : Nat) (v₁ v₂ : JValue), sizeOf v₁ ≤ n →
    MapEquiv v₁ v₂ → dumps v₁ = dumps v₂ := by
  intro n
  induction n with
  | zero =>
    intro v₁ v₂ hsz _
    exact absurd hsz (by cases v₁ <;> simp)
  | succ m ih =>
    intro v₁ v₂ hsz h
    cases h with
    | null => rfl
    | bool => rfl
    | num => rfl
    | str => rfl
    | @arr items₁ items₂ hl =>
      rw [dumps_arr_eq, dumps_arr_eq]
      have hsz1 : sizeOf items₁ ≤ m := by
        have hspec := JValue.arr.sizeOf_spec items₁
        omega
      have hmaps : items₁.map dumps = items₂.map dumps := by
        apply map_dumps_mapEquivList hl
        intro v hm w hw
        have hlt : sizeOf v < sizeOf items₁ := List.sizeOf_lt_of_mem hm
        exact ih v w (by omega) hw
      rw [hmaps]
    | @obj fs₁ fs₂ fs₃ hnd hperm hfields =>
      rw [dumps_obj_eq, dumps_obj_eq, sortFields_congr hperm hnd]
      have hsz1 : sizeOf fs₁ ≤ m := by
        have hspec := JValue.obj.sizeOf_spec fs₁
        omega
      have hmaps := map_render_mapEquivFields (mapEquivFields_sortFields hfields) ?_
      · rw [hmaps]
      · intro p hm w hw
        have hm1 : p ∈ fs₁ := hperm.mem_iff.mpr (mem_of_mem_sortFields hm)
        have h1 : sizeOf p < sizeOf fs₁ := List.sizeOf_lt_of_mem hm1
        have h2 : sizeOf p.2 < sizeOf p := by
          obtain ⟨a, b⟩ := p
          simp only [Prod.mk.sizeOf_spec]
          omega
        exact ih p.2 w (by omega) hw

theorem dumps_mapEquiv {v₁ v₂ : JValue} (h : MapEquiv v₁ v₂) :
    dumps v₁ = dumps v₂ :=
  dumps_mapEquiv_aux (sizeOf v₁) v₁ v₂ (le_refl _) h

/-- C8: digest(R) is invariant under re-serialisation of R with a different
field ordering: for two records equal as maps — the same key-value content
with unique keys, written with keys in different orders at any nesting depth,
through nested objects included — the canonical key-sorted serialisation
coincides, so the SHA-256 digests are equal and the two serialisations are
deduplicated as the same record. -/
theorem docDigest_field_order_invariant (v₁ v₂ : JValue) (h : MapEquiv v₁ v₂) :
    docDigest v₁ = docDigest v₂ := by
  unfold docDigest
  rw [dumps_mapEquiv h]

theorem docDigest_field_order_invariant_witness :
    docDigest (JValue.obj [("b", JValue.num 1),
      ("a", JValue.obj [("y", JValue.num 2), ("x", JValue.null)])]) =
    docDigest (JValue.obj [("a", JValue.obj [("x", JValue.null), ("y", JValue.num 2)]),
      ("b", JValue.num 1)]) :=
  docDigest_field_order_invariant _ _
    (MapEquiv.obj (by decide)
      (List.Perm.swap ("a", JValue.obj [("y", JValue.num 2), ("x", JValue.null)])
        ("b", JValue.num 1) [])
      (MapEquivFields.cons
        (MapEquiv.obj (by decide)
          (List.Perm.swap ("x", JValue.null) ("y", JValue.num 2) [])
          (MapEquivFields.cons MapEquiv.null
            (MapEquivFields.cons MapEquiv.num MapEquivFields.nil)))
        (MapEquivFields.cons MapEquiv.num MapEquivFields.nil)))

theorem reaches_inv {C r : ℚ} (hC : 0 ≤ C) (hr : 0 ≤ r) {b : TokenBucket}
    (hb : Reaches C r b) :
    b.capacity = C ∧ b.refillRate = r ∧ 0 ≤ b.tokens ∧ b.tokens ≤ C := by
  induction hb with
  | init t0 => exact ⟨rfl, rfl, hC, le_refl C⟩
  | step b now n hb hn ht ih =>
    obtain ⟨hcap, hrate, h0, hle⟩ := ih
    have hfill : 0 ≤ min b.capacity (b.tokens + (now - b.lastRefill) * b.refillRate) := by
      apply le_min (hcap ▸ hC)
      have : 0 ≤ (now - b.lastRefill) * b.refillRate :=
        mul_nonneg (by linarith) (hrate ▸ hr)
      linarith
    have hcapb : min b.capacity (b.tokens + (now - b.lastRefill) * b.refillRate) ≤ C :=
      hcap ▸ min_le_left _ _
    unfold TokenBucket.consume
    by_cases hc : n ≤ min b.capacity (b.tokens + (now - b.lastRefill) * b.refillRate)
    · simp only [hc, if_pos]
      exact ⟨hcap, hrate, by linarith, by linarith⟩
    · simp only [hc, if_neg, not_false_eq_true]
      exact ⟨hcap, hrate, hfill, hcapb⟩

/-- C4: for every token bucket with capacity C and refill rate C/60 per
second, in any state reachable by prior consume operations and waits: once
the bucket has been idle for more than 60 seconds, consume C succeeds
immediately; and consume n with n > C returns false, whatever the history. -/
theorem tokenBucket_quota (C : ℚ) (b : TokenBucket) (now n : ℚ)
    (hC : 0 < C) (hb : Reaches C (C / 60) b) (_hnow : b.lastRefill ≤ now) :
    (b.lastRefill + 60 < now → (b.consume now C).1 = true) ∧
    (C < n → (b.consume now n).1 = false) := by
  obtain ⟨hcap, hrate, h0, hle⟩ := reaches_inv hC.le (by positivity) hb
  constructor
  · intro hidle
    have hrpos : (0 : ℚ) < C / 60 := by positivity
    have helapsed : (60 : ℚ) < now - b.lastRefill := by linarith
    have hmul : C < (now - b.lastRefill) * (C / 60) := by
      have h := mul_lt_mul_of_pos_right helapsed hrpos
      calc C = 60 * (C / 60) := by ring
        _ < (now - b.lastRefill) * (C / 60) := h
    have hCle : C ≤ min b.capacity (b.tokens + (now - b.lastRefill) * b.refillRate) := by
      rw [hrate]
      exact le_min (le_of_eq hcap.symm) (by linarith)
    simp only [TokenBucket.consume]
    rw [if_pos hCle]
  · intro hn
    have hfail : ¬ (n ≤ min b.capacity (b.tokens + (now - b.lastRefill) * b.refillRate)) := by
      intro hcontra
      have := le_trans hcontra (min_le_left _ _)
      rw [hcap] at this
      linarith
    simp only [TokenBucket.consume]
    rw [if_neg hfail]

theorem tokenBucket_quota_witness :
    (TokenBucket.consume (TokenBucket.init 5 (5 / 60) 0) 61 5).1 = true ∧
    (TokenBucket.consume (TokenBucket.init 5 (5 / 60) 0) 61 6).1 = false := by
  have h := tokenBucket_quota 5 (TokenBucket.init 5 (5 / 60) 0) 61 6 (by norm_num)
    (Reaches.init 0) (by norm_num [TokenBucket.init])
  exact ⟨h.1 (by norm_num [TokenBucket.init]), h.2 (by norm_num)⟩

/-- C10: wait_for_tokens n loops forever when n exceeds the bucket capacity —
consume can never return true, so the loop never exits whatever fuel it is
given — while for n ≤ capacity (and a positive refill rate) it terminates
after at most two sleep-and-retry iterations. -/
theorem waitForTokens_termination (b : TokenBucket) (now n : ℚ) :
    (b.capacity < n → ∀ fuel, TokenBucket.waitForTokens n b now fuel = none) ∧
    (n ≤ b.capacity → 0 < b.refillRate →
      (TokenBucket.waitForTokens n b now 2).isSome = true) := by
  constructor
  · intro hgt
    have key : ∀ fuel (b' : TokenBucket) (now' : ℚ), b'.capacity = b.capacity →
        TokenBucket.waitForTokens n b' now' fuel = none := by
      intro fuel
      induction fuel with
      | zero => intro b' now' _; rfl
      | succ k ih =>
        intro b' now' hcap
        have hfail :
            ¬ (n ≤ min b'.capacity (b'.tokens + (now' - b'.lastRefill) * b'.refillRate)) := by
          intro hc
          have := le_trans hc (min_le_left _ _)
          rw [hcap] at this
          linarith
        have hceq : b'.consume now' n =
            (false, ⟨b'.capacity,
              min b'.capacity (b'.tokens + (now' - b'.lastRefill) * b'.refillRate),
              b'.refillRate, now'⟩) := by
          simp only [TokenBucket.consume]
          rw [if_neg hfail]
        simp only [TokenBucket.waitForTokens, hceq, Bool.false_eq_true, if_false]
        exact ih _ _ hcap
    exact fun fuel => key fuel b now rfl
  · intro hle hr
    by_cases h1 : n ≤ min b.capacity (b.tokens + (now - b.lastRefill) * b.refillRate)
    · have hceq : b.consume now n =
          (true, ⟨b.capacity,
            min b.capacity (b.tokens + (now - b.lastRefill) * b.refillRate) - n,
            b.refillRate, now⟩) := by
        simp only [TokenBucket.consume]
        rw [if_pos h1]
      simp [TokenBucket.waitForTokens, hceq]
    · have hceq : b.consume now n =
          (false, ⟨b.capacity,
            min b.capacity (b.tokens + (now - b.lastRefill) * b.refillRate),
            b.refillRate, now⟩) := by
        simp only [TokenBucket.consume]
        rw [if_neg h1]
      have hx : min b.capacity (b.tokens + (now - b.lastRefill) * b.refillRate) < n :=
        lt_of_not_le h1
      set x := min b.capacity (b.tokens + (now - b.lastRefill) * b.refillRate) with hxdef
      have harith :
          (now + ((n - x) / b.refillRate + 1 / 10) - now) * b.refillRate
            = (n - x) + b.refillRate / 10 := by
        field_simp
        ring
      have h2 : n ≤ min b.capacity (x + (now + ((n - x) / b.refillRate + 1 / 10) - now)
          * b.refillRate) := by
        rw [harith]
        exact le_min hle (by linarith)
      have hceq2 : TokenBucket.consume ⟨b.capacity, x, b.refillRate, now⟩
          (now + ((n - x) / b.refillRate + 1 / 10)) n =
          (true, ⟨b.capacity,
            min b.capacity (x + (now + ((n - x) / b.refillRate + 1 / 10) - now)
              * b.refillRate) - n,
            b.refillRate, now + ((n - x) / b.refillRate + 1 / 10)⟩) := by
        simp only [TokenBucket.consume]
        rw [if_pos h2]
      simp only [one_div] at hceq2
      simp [TokenBucket.waitForTokens, hceq, hceq2]

theorem waitForTokens_termination_witness :
    TokenBucket.waitForTokens 6 (TokenBucket.init 5 (5 / 60) 0) 0 3 = none ∧
    (TokenBucket.waitForTokens 5 (TokenBucket.init 5 (5 / 60) 0) 0 2).isSome = true := by
  have h := waitForTokens_termination (TokenBucket.init 5 (5 / 60) 0) 0 6
  have h5 := waitForTokens_termination (TokenBucket.init 5 (5 / 60) 0) 0 5
  exact ⟨h.1 (by norm_num [TokenBucket.init]) 3,
    h5.2 (by norm_num [TokenBucket.init]) (by norm_num [TokenBucket.init])⟩


theorem wzReadLoop_filterMap : ∀ (bs : Nat) (rest : List Char),
    (wzReadLoop bs rest).1 = (wzLines bs rest).filterMap (fun l => jsonLoads ⟨l⟩) := by
  intro bs
  induction bs with
  | zero => intro rest; rfl
  | succ k ih =>
    intro rest
    simp only [wzReadLoop, wzLines]
    by_cases h : (readLine rest).1 = []
    · simp [h]
    · cases hj : jsonLoads ⟨(readLine rest).1⟩ with
      | some v => simp [h, hj, List.filterMap_cons, ih]
      | none => simp [h, hj, List.filterMap_cons, ih]

/-- C9 (amended): a malformed record in a batch is skipped individually and
does not abort ingestion — the read loop hands downstream exactly the
well-formed records among the lines it consumed, in their original order —
and in the ten-record batch whose seventh record is malformed exactly 9
records are returned for the vector store. The code does not, however, count
the skipped records: wzMalformedCount below is derived from the file, not
from anything the code maintains. -/
theorem readNewLogs_skips_malformed (file : List Char) (pos bs : Nat) :
    (readNewLogsW file pos bs).1 =
      (wzLines bs (file.drop pos)).filterMap (fun l => jsonLoads ⟨l⟩) ∧
    (readNewLogsW exBatch10 0 1000).1.length = 9 ∧
    wzMalformedCount 1000 exBatch10 = 1 :=
  ⟨wzReadLoop_filterMap bs (file.drop pos), by rfl, by rfl⟩

/-- C9 (counterexample): the number of skipped malformed records is not
counted: two batches with different numbers of malformed records yield
identical observable outcomes — the same returned records and the same
persisted offset — so no output of the tailer reflects that count. -/
theorem malformed_not_counted_cex :
    readNewLogsW exMal1 0 10 = readNewLogsW exMal2 0 10 ∧
    wzMalformedCount 10 exMal1 = 1 ∧ wzMalformedCount 10 exMal2 = 2 :=
  ⟨rfl, rfl, rfl⟩

/-- C2 (counterexample): the claimed discipline — the offset is persisted only
after the batch is handed off downstream — is false of process_logs: on a
one-record file the trace puts set_log_position before the vector-store
handoff. -/
theorem processLogs_persist_order_cex :
    persistedOnlyAfterHandoff (processLogsTH exOneLineFile 0 10).2 = false := by
  rfl

/-- C2 (amended): process_logs persists the new offset immediately after the
batch read and before the downstream handoff — whenever the batch is
nonempty the effect trace is set_log_position first, then the vector-store
handoff, then the index save and the dashboard save, so a crash between the
persist and the handoff loses the batch (at-most-once across a crash, not
at-least-once). -/
theorem processLogs_persistsBeforeHandoff (file : List Char) (lastPos bs : Nat)
    (v : JValue) (logs : List JValue)
    (h : (processLogsTH file lastPos bs).1 = v :: logs) :
    (processLogsTH file lastPos bs).2 =
      [PLEffect.setPosition (startPosTH file lastPos +
        (thReadLoop bs (file.length + 1) 0 (file.drop (startPosTH file lastPos))).2),
       PLEffect.handoffVectorDB (v :: logs), PLEffect.saveVectorDB,
       PLEffect.saveDashboard] := by
  have hr : (thReadLoop bs (file.length + 1) 0 (file.drop (startPosTH file lastPos))).1
      = v :: logs := h
  simp only [processLogsTH]
  rw [hr]
  simp [List.isEmpty_cons]

theorem processLogs_persistsBeforeHandoff_witness :
    (processLogsTH exOneLineFile 0 10).2 =
      [PLEffect.setPosition (startPosTH exOneLineFile 0 +
        (thReadLoop 10 (exOneLineFile.length + 1) 0
          (exOneLineFile.drop (startPosTH exOneLineFile 0))).2),
       PLEffect.handoffVectorDB [JValue.obj [("a", JValue.num 1)]],
       PLEffect.saveVectorDB, PLEffect.saveDashboard] :=
  processLogs_persistsBeforeHandoff exOneLineFile 0 10 (JValue.obj [("a", JValue.num 1)])
    [] (by rfl)

/-- C7 (counterexample): WazuhAPI.read_new_logs has no rotation handling:
with persisted offset 5000 and a 1000-character source it returns no records
and persists 5000 again, while a read from the start of the same file returns
10 records — so the next read does not start at offset 0 as claimed. -/
theorem wazuh_no_rotation_reset_cex :
    readNewLogsW exRotFile 5000 10 = ([], 5000) ∧
    (readNewLogsW exRotFile 0 10).1.length = 10 ∧
    (readNewLogsW exRotFile 5000 10).1.length ≠ (readNewLogsW exRotFile 0 10).1.length :=
  ⟨rfl, rfl, by decide⟩

/-- C7 (amended): process_logs (Threat_Hunter.py) does treat a persisted
offset larger than the file as rotation: it resets the offset to 0, so the
read behaves exactly like a read from the beginning of the file. -/
theorem processLogs_rotation_reset (file : List Char) (lastPos bs : Nat)
    (h : file.length < lastPos) :
    processLogsTH file lastPos bs = processLogsTH file 0 bs := by
  simp only [processLogsTH, startPosTH]
  rw [if_pos h, if_neg (Nat.not_lt_zero file.length)]

theorem processLogs_rotation_reset_witness :
    processLogsTH exRotFile 5000 10 = processLogsTH exRotFile 0 10 :=
  processLogs_rotation_reset exRotFile 5000 10 (by decide)

theorem getD_mem_of_lt (l : List Nat) (i : Nat) (h : i < l.length) : l.getD i 0 ∈ l := by
  induction l generalizing i with
  | nil => simp at h
  | cons a t ih =>
    cases i with
    | zero => simp [List.getD_cons_zero]
    | succ k =>
      simp only [List.getD_cons_succ]
      exact List.mem_cons_of_mem a (ih k (by simpa using h))

theorem getD_set_self (l : List Nat) (i v : Nat) (h : i < l.length) :
    (l.set i v).getD i 0 = v := by
  induction l generalizing i with
  | nil => simp at h
  | cons a t ih =>
    cases i with
    | zero => simp [List.set]
    | succ k => simpa [List.set] using ih k (by simpa using h)

theorem sum_set_add (l : List Nat) (i v : Nat) (h : i < l.length) :
    (l.set i v).sum + l.getD i 0 = l.sum + v := by
  induction l generalizing i with
  | nil => simp at h
  | cons a t ih =>
    cases i with
    | zero => simp [List.set]; omega
    | succ k =>
      have := ih k (by simpa using h)
      simp only [List.set, List.sum_cons, List.getD_cons_succ]
      omega

theorem runCalls_isSome (n : Nat) (hn : 0 < n) :
    ∀ (rs : List GemResp) (st : GemState), GoodGem n st →
      gemPotential st ≤ rs.length → (runCalls n st rs).isSome = true := by
  intro rs
  induction rs with
  | nil =>
    intro st _ hp
    have h15 : 15 ≤ st.retryCount := by
      simp only [gemPotential, List.length_nil, Nat.le_zero] at hp
      omega
    simp [runCalls, h15]
  | cons r rest ih =>
    intro st hg hp
    obtain ⟨hlen, hcur, hbound⟩ := hg
    by_cases hrc : 15 ≤ st.retryCount
    · simp [runCalls, hrc]
    · have hcl : st.cur < st.failures.length := hlen ▸ hcur
      have hf0 : st.failures.getD st.cur 0 ≤ 2 :=
        hbound _ (getD_mem_of_lt _ _ hcl)
      cases r with
      | success t => simp [runCalls, hrc, gemApiStep]
      | httpError => simp [runCalls, hrc, gemApiStep]
      | otherError => simp [runCalls, hrc, gemApiStep]
      | timeout =>
        have hstep : gemApiStep n st GemResp.timeout =
            GemStep.next ⟨st.retryCount + 1, st.cur, st.failures⟩ false := rfl
        simp only [runCalls, hrc, if_neg, if_false, hstep]
        apply ih
        · exact ⟨hlen, hcur, hbound⟩
        · simp only [gemPotential] at hp ⊢
          simp only [List.length_cons] at hp
          omega
      | rate429 =>
        by_cases h3 : 3 ≤ st.failures.getD st.cur 0 + 1
        · have hstep : gemApiStep n st GemResp.rate429 =
              GemStep.next (rotateKey n
                ⟨st.retryCount, st.cur, st.failures.set st.cur
                  (st.failures.getD st.cur 0 + 1)⟩) true := by
            simp only [gemApiStep]
            rw [if_pos h3]
          simp only [runCalls, hrc, if_neg, if_false, hstep]
          have hset2 : (st.failures.set st.cur
              (st.failures.getD st.cur 0 + 1)).set st.cur 0 = st.failures.set st.cur 0 :=
            List.set_set ..
          apply ih
          · refine ⟨?_, ?_, ?_⟩
            · simp [rotateKey, hlen]
            · simpa [rotateKey] using Nat.mod_lt _ hn
            · intro f hf
              simp only [rotateKey, hset2] at hf
              rcases List.mem_or_eq_of_mem_set hf with hmem | h0
              · exact hbound _ hmem
              · omega
          · have hsum : (st.failures.set st.cur 0).sum + st.failures.getD st.cur 0
                = st.failures.sum + 0 := sum_set_add _ _ _ hcl
            simp only [gemPotential, rotateKey, hset2] at hp ⊢
            simp only [List.length_cons] at hp
            omega
        · have hstep : gemApiStep n st GemResp.rate429 =
              GemStep.next ⟨st.retryCount + 1, st.cur, st.failures.set st.cur
                (st.failures.getD st.cur 0 + 1)⟩ false := by
            simp only [gemApiStep]
            rw [if_neg h3]
          simp only [runCalls, hrc, if_neg, if_false, hstep]
          have hsum : (st.failures.set st.cur (st.failures.getD st.cur 0 + 1)).sum
              + st.failures.getD st.cur 0
              = st.failures.sum + (st.failures.getD st.cur 0 + 1) := sum_set_add _ _ _ hcl
          apply ih
          · refine ⟨by simp [hlen], hcur, ?_⟩
            intro f hf
            rcases List.mem_or_eq_of_mem_set hf with hmem | h0
            · exact hbound _ hmem
            · omega
          · simp only [gemPotential] at hp ⊢
            simp only [List.length_cons] at hp
            omega

/-- C3: the call_gemini_api loop makes a bounded number of attempts — an
oracle of 45 responses is never exhausted, whatever the responses are — and
when retry_count reaches the cap of 15 the loop fails hard by raising
HTTPException(429, "Max retries exceeded.") instead of returning text, as an
oracle of 15 straight timeouts shows. -/
theorem callGeminiApi_bounded_serviceError (n : Nat) (rs : List GemResp)
    (hn : 0 < n) (hlen : 45 ≤ rs.length) :
    (runCalls n (initGemState n) rs).isSome = true ∧
    runCalls 2 (initGemState 2) (List.replicate 15 GemResp.timeout) =
      some (GemResult.httpException 429 "Max retries exceeded.", ⟨15, 0, [0, 0]⟩) := by
  constructor
  · apply runCalls_isSome n hn rs (initGemState n)
    · refine ⟨by simp [initGemState], by simpa [initGemState] using hn, ?_⟩
      intro f hf
      rw [initGemState] at hf
      simp only [List.mem_replicate] at hf
      omega
    · simp only [gemPotential, initGemState, List.sum_replicate, smul_eq_mul]
      omega
  · rfl

theorem callGeminiApi_bounded_serviceError_witness :
    (runCalls 2 (initGemState 2) (List.replicate 45 GemResp.timeout)).isSome = true :=
  (callGeminiApi_bounded_serviceError 2 (List.replicate 45 GemResp.timeout)
    (by decide) (by decide)).1

/-- C1 (amended): in the call_gemini_api loop, rotation happens only on a
rate-limit response that is the third consecutive one on the active
credential — never on a timeout, a success, or another error class — a
success resets the active credential's counter to 0, and a single throttle
followed by a success completes with the same credential active and its
counter reset; in the Gemini class of core/gemini.py, however, any
non-throttle error also triggers an immediate rotation. -/
theorem credentialRotation_amended (n : Nat) (st : GemState) (resp : GemResp)
    (t : String) (_hn : 0 < n) (hg : GoodGem n st) :
    (stepRotated n st resp = true →
      resp = GemResp.rate429 ∧ st.failures.getD st.cur 0 = 2) ∧
    (gemApiStep n st (GemResp.success t) =
      GemStep.finish (GemResult.ok t)
        ⟨st.retryCount, st.cur, st.failures.set st.cur 0⟩) ∧
    (st.failures.getD st.cur 0 = 0 → st.retryCount ≤ 13 →
      (runCalls n st [GemResp.rate429, GemResp.success t]).map
          (fun p => (p.1, p.2.cur, p.2.failures.getD st.cur 0)) =
        some (GemResult.ok t, st.cur, 0)) ∧
    (∀ st2 : GenState, (genHandle n st2 GenEvent.errOther).2 = true) := by
  obtain ⟨hlen, hcur, hbound⟩ := hg
  have hcl : st.cur < st.failures.length := hlen ▸ hcur
  have hf0 : st.failures.getD st.cur 0 ≤ 2 := hbound _ (getD_mem_of_lt _ _ hcl)
  refine ⟨?_, rfl, ?_, fun st2 => rfl⟩
  · intro hrot
    cases resp with
    | success t2 => simp [stepRotated, gemApiStep] at hrot
    | timeout => simp [stepRotated, gemApiStep] at hrot
    | httpError => simp [stepRotated, gemApiStep] at hrot
    | otherError => simp [stepRotated, gemApiStep] at hrot
    | rate429 =>
      refine ⟨rfl, ?_⟩
      by_cases h3 : 3 ≤ st.failures.getD st.cur 0 + 1
      · omega
      · have hstep : gemApiStep n st GemResp.rate429 =
            GemStep.next ⟨st.retryCount + 1, st.cur, st.failures.set st.cur
              (st.failures.getD st.cur 0 + 1)⟩ false := by
          simp only [gemApiStep]
          rw [if_neg h3]
        simp [stepRotated, hstep] at hrot
  · intro h0 h13
    have h3n : ¬ 3 ≤ st.failures.getD st.cur 0 + 1 := by omega
    have hstep1 : gemApiStep n st GemResp.rate429 =
        GemStep.next ⟨st.retryCount + 1, st.cur, st.failures.set st.cur
          (st.failures.getD st.cur 0 + 1)⟩ false := by
      simp only [gemApiStep]
      rw [if_neg h3n]
    have hnotcap : ¬ 15 ≤ st.retryCount := by omega
    have hnotcap2 : ¬ 15 ≤ st.retryCount + 1 := by omega
    simp only [runCalls, hnotcap, hnotcap2, if_neg, if_false, hstep1, gemApiStep]
    have hset2 : (st.failures.set st.cur (st.failures.getD st.cur 0 + 1)).set st.cur 0
        = st.failures.set st.cur 0 := List.set_set ..
    rw [if_neg h3n]
    simp [hnotcap2, hset2]
    simpa [List.getD] using getD_set_self st.failures st.cur 0 hcl

theorem credentialRotation_amended_witness :
    (runCalls 2 ⟨0, 0, [0, 0]⟩ [GemResp.rate429, GemResp.success "ok"]).map
        (fun p => (p.1, p.2.cur, p.2.failures.getD 0 0)) =
      some (GemResult.ok "ok", 0, 0) :=
  (credentialRotation_amended 2 ⟨0, 0, [0, 0]⟩ GemResp.timeout "ok" (by decide)
    ⟨rfl, by decide, by decide⟩).2.2.1 (by decide) (by decide)

/-- C1 (counterexample): in Gemini.generate (core/gemini.py) a single
non-throttle error — with zero consecutive rate-limit responses recorded on
the active credential — invokes rotate and switches the active credential,
so rotation is not triggered only by sustained throttling. -/
theorem generate_rotates_on_other_error_cex :
    (genHandle 2 ⟨0, [0, 0]⟩ GenEvent.errOther).2 = true ∧
    (genHandle 2 ⟨0, [0, 0]⟩ GenEvent.errOther).1.cur = 1 ∧
    (⟨0, [0, 0]⟩ : GenState).failures.getD 0 0 = 0 :=
  ⟨rfl, rfl, rfl⟩

theorem mem_foldl_cons {α : Type} (l : List α) (base : List α) (x : α) :
    x ∈ l.foldl (fun acc i => i :: acc) base ↔ x ∈ base ∨ x ∈ l := by
  induction l generalizing base with
  | nil => simp
  | cons a t ih =>
    simp only [List.foldl_cons, ih, List.mem_cons]
    tauto

theorem processCandidates_inv (ts : String) (ignored : List String) :
    ∀ (batch : List CandidateIssue) (sigs : List String),
      (∀ i ∈ processCandidates ts ignored sigs batch,
        issueSig i ∉ sigs ∧ i.id ∉ ignored) ∧
      ((processCandidates ts ignored sigs batch).map issueSig).Nodup := by
  intro batch
  induction batch with
  | nil =>
    intro sigs
    exact ⟨fun i hi => absurd hi (by simp [processCandidates]), by simp [processCandidates]⟩
  | cons c rest ih =>
    intro sigs
    by_cases h1 : candSignature c ∈ sigs
    · simpa [processCandidates, h1] using ih sigs
    · by_cases h2 : issueIdOf c.title ∈ ignored
      · simpa [processCandidates, h1, h2] using ih sigs
      · have hstep : processCandidates ts ignored sigs (c :: rest) =
            mkIssue c (issueIdOf c.title) ts ::
              processCandidates ts ignored (candSignature c :: sigs) rest := by
          simp [processCandidates, h1, h2]
        obtain ⟨hmem, hnd⟩ := ih (candSignature c :: sigs)
        rw [hstep]
        constructor
        · intro i hi
          rcases List.mem_cons.mp hi with hhead | hi2
          · subst hhead
            exact ⟨h1, h2⟩
          · have hh := hmem i hi2
            exact ⟨fun hs => hh.1 (List.mem_cons_of_mem _ hs), hh.2⟩
        · simp only [List.map_cons, List.nodup_cons]
          refine ⟨?_, hnd⟩
          intro hcontra
          rcases List.mem_map.mp hcontra with ⟨i, hi2, heq⟩
          have hh := (hmem i hi2).1
          rw [heq] at hh
          exact hh (List.mem_cons_self _ _)

/-- C5: ignore(issueId) removes the issue from the active set and adds the id
to the persisted ignore set; and any subsequent reconciliation over a state
whose ignore set holds the id (and whose active set does not) leaves the
ignore set unchanged and never re-admits an issue with that id to the active
set: a candidate whose derived id equals an ignored id is rejected. -/
theorem ignoreIssue_permanent (st : AnalysisState) (issueId : String)
    (st2 : AnalysisState) (batch : List CandidateIssue) (ts : String)
    (maxIssues : Nat) (hig : issueId ∈ st2.ignored)
    (hnotact : issueId ∉ st2.issues.map Issue.id) :
    issueId ∉ (ignoreIssue issueId st).issues.map Issue.id ∧
    issueId ∈ (ignoreIssue issueId st).ignored ∧
    (analyzeStep st2 batch ts maxIssues).ignored = st2.ignored ∧
    issueId ∉ (analyzeStep st2 batch ts maxIssues).issues.map Issue.id := by
  refine ⟨?_, List.mem_cons_self _ _, rfl, ?_⟩
  · intro hcontra
    rcases List.mem_map.mp hcontra with ⟨i, hi, heq⟩
    have hpi := List.of_mem_filter hi
    simp only [decide_eq_true_eq] at hpi
    exact hpi heq
  · intro hcontra
    simp only [analyzeStep] at hcontra
    rcases List.mem_map.mp hcontra with ⟨i, hi, heq⟩
    have hi2 := List.take_subset _ _ hi
    rw [mem_foldl_cons] at hi2
    rcases hi2 with hbase | hnew
    · exact hnotact (heq ▸ List.mem_map_of_mem Issue.id hbase)
    · have hnew2 := List.mem_of_mem_filter hnew
      have hh := (processCandidates_inv ts st2.ignored batch
        (st2.issues.map issueSig)).1 i hnew2
      apply hh.2
      rw [heq]
      exact hig

theorem ignoreIssue_permanent_witness :
    "x1" ∉ (ignoreIssue "x1" ⟨[], []⟩).issues.map Issue.id ∧
    "x1" ∈ (ignoreIssue "x1" ⟨[], []⟩).ignored ∧
    (analyzeStep ⟨[], ["x1"]⟩ [⟨"High", "T", "S", "R"⟩] "ts" 5).ignored = ["x1"] ∧
    "x1" ∉ (analyzeStep ⟨[], ["x1"]⟩ [⟨"High", "T", "S", "R"⟩] "ts" 5).issues.map Issue.id :=
  ignoreIssue_permanent ⟨[], []⟩ "x1" ⟨[], ["x1"]⟩ [⟨"High", "T", "S", "R"⟩] "ts" 5
    (by decide) (by simp)

/-- C6: the issue signature is a deterministic function of the normalized
(severity, title, summary) fields — two candidates with identical severity,
title and summary have the same signature — and across one reconciliation
batch the accepted issues carry pairwise distinct signatures, none equal to a
pre-existing issue's signature, so of two such duplicate candidates at most
one is accepted: the other is rejected against the pre-existing issues or
against the candidate accepted earlier in the same batch. -/
theorem issueSignature_dedup (sigs ignored : List String)
    (batch : List CandidateIssue) (a b : CandidateIssue) (ts : String)
    (h1 : a.severity = b.severity) (h2 : a.title = b.title)
    (h3 : a.summary = b.summary) :
    candSignature a = candSignature b ∧
    ((processCandidates ts ignored sigs batch).map issueSig).Nodup ∧
    ∀ i ∈ processCandidates ts ignored sigs batch, issueSig i ∉ sigs := by
  refine ⟨?_, (processCandidates_inv ts ignored batch sigs).2,
    fun i hi => ((processCandidates_inv ts ignored batch sigs).1 i hi).1⟩
  unfold candSignature
  rw [h1, h2, h3]

theorem issueSignature_dedup_witness :
    candSignature ⟨"High", "T", "S", "R1"⟩ = candSignature ⟨"High", "T", "S", "R2"⟩ ∧
    ((processCandidates "ts" [] [] []).map issueSig).Nodup ∧
    ∀ i ∈ processCandidates "ts" [] [] [], issueSig i ∉ [] :=
  issueSignature_dedup [] [] [] ⟨"High", "T", "S", "R1"⟩ ⟨"High", "T", "S", "R2"⟩
    "ts" rfl rfl rfl

end ThreatHunter
